import Mathlib

/-!
# Verification model of the `pg-db-idle-agent` crate

Shallow embedding of the scheduling/dispatch loop of `PgDbIdleAgent`
(`src/pg-db-idle-agent/src/lib.rs`) and its configuration bundle
(`src/pg-db-idle-agent/src/pg_db_agent_params.rs`).

Modelling choices:
* Row values have an abstract type `T`, sqlx error values an abstract type `E`,
  the record-handler and error-handler closures opaque types `F` / `Eh`.
* The query-execution backend (`sqlx::query_as(...).fetch_all(pool)`, which
  executes the query and decodes every returned row before yielding the
  vector) is an oracle `backend : PgDbAgentQueryActionParams T F → Except E (List T)`
  giving, for a given tick, the combined execute-and-decode outcome of an entry.
* Handler invocations are observable events: `Event.record j r` means "entry
  `j`'s `action` closure was invoked with row `r`", `Event.err e` means "the
  bundle's shared `error_handler` was invoked with error `e`".  The embedding
  of `check_data` and of the loop body returns the event list in invocation
  order.
* Real time is modelled by `Nat` instants.  `tokio::time::interval` is
  modelled after its documented semantics: the interval is created with its
  first deadline at the creation instant (so the first tick completes
  immediately), each `tick` completes at `max deadline now` and then advances
  the deadline by exactly one period (the default `MissedTickBehavior::Burst`:
  deadlines stay anchored to the creation instant and missed ticks fire
  immediately, they are not skipped and not rescheduled from the dispatch
  time).
-/

namespace PgAgent

variable {T F E Eh : Type}

/-- One observable handler invocation performed by the loop:
`record j r` is entry `j`'s per-row `action` called with row `r`;
`err e` is the bundle's shared `error_handler` called with error `e`. -/
inductive Event (T E : Type) where
  | record (entry : Nat) (row : T)
  | err (e : E)
deriving DecidableEq

/-- Embedding of `PgDbAgentQueryActionParams` (pg_db_agent_params.rs): one
query-action entry — a pool handle (opaque, identified by a `Nat`), the query
text, and the per-row handler closure (opaque value of type `F`).  The
`PhantomData` marker field has no runtime content and is omitted. -/
structure PgDbAgentQueryActionParams (T F : Type) where
  pool : Nat
  query : String
  action : F

/-- Embedding of `PgDbAgentQueryActionParams::new`: plain field assembly. -/
def PgDbAgentQueryActionParams.new (pool : Nat) (query : String) (action : F) :
    PgDbAgentQueryActionParams T F :=
  { pool := pool, query := query, action := action }

/-- Embedding of `PgDbAgentParams` (pg_db_agent_params.rs): the configuration
bundle — ordered entries, polling interval (a duration in abstract time
units), and the single shared error-handler closure. -/
structure PgDbAgentParams (T F Eh : Type) where
  query_actions : List (PgDbAgentQueryActionParams T F)
  interval_secs : Nat
  error_handler : Eh

/-- Embedding of `PgDbAgentParams::new`: plain field assembly, no validation
of any kind (empty `query_actions` and zero intervals are accepted). -/
def PgDbAgentParams.new (query_actions : List (PgDbAgentQueryActionParams T F))
    (interval_secs : Nat) (error_handler : Eh) : PgDbAgentParams T F Eh :=
  { query_actions := query_actions, interval_secs := interval_secs,
    error_handler := error_handler }

/-- Embedding of `PgDbIdleAgent` (lib.rs): it has the single field `params`. -/
structure PgDbIdleAgent (T F Eh : Type) where
  params : PgDbAgentParams T F Eh

/-- Embedding of `PgDbIdleAgent::new`: stores the bundle, nothing else — no
handler invocation, no query execution, no background work. -/
def PgDbIdleAgent.new (params : PgDbAgentParams T F Eh) : PgDbIdleAgent T F Eh :=
  { params := params }

/-- The backend oracle: for an entry, the outcome of
`sqlx::query_as::<_, T>(entry.query).fetch_all(&entry.pool)` — either all
rows executed and decoded (in backend order), or the first execution/decode
error. -/
abbrev Backend (T F E : Type) :=
  PgDbAgentQueryActionParams T F → Except E (List T)

/-- Embedding of the entry loop of `PgDbIdleAgent::check_data`, carrying the
position `idx` of the first entry of `qas` in the original list.  For each
entry in order: run `fetch_all`; on `Err e` the `?` operator propagates the
error immediately (no events for this or any later entry of this call); on
`Ok rows` every row is dispatched to the entry's `action` in order, then the
loop continues with the next entry. -/
def checkDataAux (backend : Backend T F E) :
    List (PgDbAgentQueryActionParams T F) → Nat → List (Event T E) × Except E Unit
  | [], _ => ([], Except.ok ())
  | qa :: rest, idx =>
    match backend qa with
    | Except.error e => ([], Except.error e)
    | Except.ok rows =>
      let p := checkDataAux backend rest (idx + 1)
      (rows.map (Event.record idx) ++ p.1, p.2)

/-- Embedding of `PgDbIdleAgent::check_data`: processes
`self.params.query_actions` from position 0; returns the record-handler
events it emitted and its `Result<(), sqlx::Error>`.  (The `dbg!` logging
line has no observable effect on handlers and is not modelled.) -/
def check_data (backend : Backend T F E)
    (qas : List (PgDbAgentQueryActionParams T F)) :
    List (Event T E) × Except E Unit :=
  checkDataAux backend qas 0

/-- The error-handler invocation performed by the loop body of `start`:
`if let Err(e) = self.check_data().await { (self.params.error_handler)(e); }`. -/
def errEvents : Except E Unit → List (Event T E)
  | Except.ok _ => []
  | Except.error e => [Event.err e]

/-- All handler invocations of one iteration of the loop spawned by `start`
(one tick): the events of `check_data` followed by at most one error-handler
invocation. -/
def tickEvents (backend : Backend T F E)
    (qas : List (PgDbAgentQueryActionParams T F)) : List (Event T E) :=
  (check_data backend qas).1 ++ errEvents (check_data backend qas).2

/-- The rows dispatched to entry `j`'s record handler, in invocation order. -/
def recordsOf (j : Nat) : List (Event T E) → List T :=
  List.filterMap fun ev =>
    match ev with
    | Event.record i r => if i = j then some r else none
    | Event.err _ => none

/-- Entry indices of the record events, in invocation order. -/
def recordTags : List (Event T E) → List Nat :=
  List.filterMap fun ev =>
    match ev with
    | Event.record i _ => some i
    | Event.err _ => none

/-- Number of error-handler invocations in an event list. -/
def errCount : List (Event T E) → Nat :=
  List.countP fun ev =>
    match ev with
    | Event.err _ => true
    | Event.record _ _ => false

/-- The error of the first entry whose `fetch_all` fails, if any. -/
def firstError (backend : Backend T F E) :
    List (PgDbAgentQueryActionParams T F) → Option E
  | [] => none
  | qa :: rest =>
    match backend qa with
    | Except.error e => some e
    | Except.ok _ => firstError backend rest

/-- The rows of a successful `fetch_all` outcome (empty on error). -/
def okRows : Except E (List T) → List T
  | Except.ok rows => rows
  | Except.error _ => []

/-- The record events a list of entries emits when every one of them is
actually executed and dispatched, first entry at position `idx`. -/
def okDispatch (backend : Backend T F E) :
    List (PgDbAgentQueryActionParams T F) → Nat → List (Event T E)
  | [], _ => []
  | qa :: rest, idx =>
    (okRows (backend qa)).map (Event.record idx) ++ okDispatch backend rest (idx + 1)

/-! ## Timing model of `tokio::time::interval` -/

/-- State of a `tokio::time::Interval`: the next deadline and the period.
`tokio::time::interval(period)` is `interval_at(Instant::now(), period)`, so
the freshly created interval's deadline is the creation instant. -/
structure Interval where
  deadline : Nat
  period : Nat
deriving DecidableEq

/-- `time::interval(period)` created at instant `now`. -/
def Interval.new (now period : Nat) : Interval :=
  { deadline := now, period := period }

/-- One `ticker.tick().await` polled from instant `now`: it completes at
`max deadline now` (immediately when the deadline already passed — the
default `MissedTickBehavior::Burst` does not skip or reschedule missed
deadlines), and the next deadline is exactly one period after the previous
deadline, anchored to the creation instant rather than to the completion
instant. -/
def Interval.tick (s : Interval) (now : Nat) : Nat × Interval :=
  (max s.deadline now, { deadline := s.deadline + s.period, period := s.period })

/-- `n` iterations of the loop spawned by `start`, threading the ticker state,
the current instant and the tick counter `k`.  Each iteration awaits the
ticker, then runs `check_data` against tick `k`'s backend oracle
(`backends k`), which occupies `proc k` time units; the emitted pair is
(instant at which the tick's dispatch began, handler events of the tick). -/
def timedRunAux (backends : Nat → Backend T F E)
    (qas : List (PgDbAgentQueryActionParams T F)) (proc : Nat → Nat) :
    Nat → Interval → Nat → Nat → List (Nat × List (Event T E))
  | 0, _, _, _ => []
  | n + 1, s, now, k =>
    let fire := s.tick now
    (fire.1, tickEvents (backends k) qas) ::
      timedRunAux backends qas proc n fire.2 (fire.1 + proc k) (k + 1)

/-- The timed trace of a started agent over its first `n` ticks: `start` is
called at instant `t0` with polling interval `period`; it creates the ticker
and spawns the loop. -/
def timedRun (period t0 : Nat) (backends : Nat → Backend T F E)
    (qas : List (PgDbAgentQueryActionParams T F)) (proc : Nat → Nat)
    (n : Nat) : List (Nat × List (Event T E)) :=
  timedRunAux backends qas proc n (Interval.new t0 period) t0 0

/-- The untimed trace of a started agent over its first `n` ticks, each event
tagged with the index of the tick that emitted it. -/
def agentRun (backends : Nat → Backend T F E)
    (qas : List (PgDbAgentQueryActionParams T F)) :
    Nat → List (Nat × Event T E)
  | 0 => []
  | n + 1 =>
    agentRun backends qas n ++ (tickEvents (backends n) qas).map (fun ev => (n, ev))

/-! ## Concrete configurations used to exercise the model -/

/-- A two-entry configuration: entry 0 and entry 1, distinguished by pool id. -/
def cexEntries : List (PgDbAgentQueryActionParams Nat Unit) :=
  [PgDbAgentQueryActionParams.new 0 "SELECT a FROM t0" (),
   PgDbAgentQueryActionParams.new 1 "SELECT a FROM t1" ()]

/-- A backend on which the entry with pool 0 always fails with error `7` and
every other entry succeeds with the single row `42`. -/
def cexBackend : Backend Nat Unit Nat := fun qa =>
  if qa.pool = 0 then Except.error 7 else Except.ok [42]

/-- A backend on which every entry succeeds with the single row `42`. -/
def cexOkBackend : Backend Nat Unit Nat := fun _ => Except.ok [42]

/-- A one-entry configuration. -/
def cexOneEntry : List (PgDbAgentQueryActionParams Nat Unit) :=
  [PgDbAgentQueryActionParams.new 0 "SELECT a FROM t0" ()]

/-- Per-tick backends: tick 0 fails with error `5`, later ticks succeed with
the single row `9`. -/
def cexTickBackends : Nat → Backend Nat Unit Nat := fun k _ =>
  if k = 0 then Except.error 5 else Except.ok [9]

/-- A backend on which every entry succeeds, returning its pool id as the
single row. -/
def cexPoolBackend : Backend Nat Unit Nat := fun qa => Except.ok [qa.pool]

/-! ## Helper lemmas about event lists -/

lemma recordsOf_append (j : Nat) (l1 l2 : List (Event T E)) :
    recordsOf j (l1 ++ l2) = recordsOf j l1 ++ recordsOf j l2 := by
  simp [recordsOf, List.filterMap_append]

lemma recordsOf_map_record_self (i : Nat) (rows : List T) :
    recordsOf (E := E) i (rows.map (Event.record i)) = rows := by
  induction rows with
  | nil => rfl
  | cons r rs ih => simpa [recordsOf, List.filterMap_cons] using ih

lemma recordsOf_map_record_ne (j i : Nat) (h : i ≠ j) (rows : List T) :
    recordsOf (E := E) j (rows.map (Event.record i)) = [] := by
  induction rows with
  | nil => rfl
  | cons r rs _ih => simp [recordsOf, List.filterMap_cons, h]

lemma recordsOf_errEvents (j : Nat) (r : Except E Unit) :
    recordsOf (T := T) j (errEvents r) = [] := by
  cases r <;> rfl

lemma recordsOf_tickEvents (backend : Backend T F E)
    (qas : List (PgDbAgentQueryActionParams T F)) (j : Nat) :
    recordsOf j (tickEvents backend qas) = recordsOf j (check_data backend qas).1 := by
  simp [tickEvents, recordsOf_append, recordsOf_errEvents]

lemma recordsOf_checkDataAux_lt (backend : Backend T F E)
    (qas : List (PgDbAgentQueryActionParams T F)) :
    ∀ idx j, j < idx → recordsOf j (checkDataAux backend qas idx).1 = [] := by
  induction qas with
  | nil => intro idx j _; rfl
  | cons qa rest ih =>
    intro idx j h
    cases hb : backend qa with
    | error e => simp [checkDataAux, hb, recordsOf]
    | ok rows =>
      simp [checkDataAux, hb, recordsOf_append,
        recordsOf_map_record_ne j idx (by omega) rows, ih (idx + 1) j (by omega)]

lemma recordsOf_checkDataAux_at (backend : Backend T F E) :
    ∀ (qas : List (PgDbAgentQueryActionParams T F)) (idx j : Nat)
      (qa : PgDbAgentQueryActionParams T F) (rows : List T),
      (∀ x ∈ qas.take j, ∃ rs, backend x = Except.ok rs) →
      qas.get? j = some qa → backend qa = Except.ok rows →
      recordsOf (idx + j) (checkDataAux backend qas idx).1 = rows := by
  intro qas
  induction qas with
  | nil => intro idx j qa rows _ hj _; simp at hj
  | cons qa0 rest ih =>
    intro idx j qa rows hpre hj hok
    cases j with
    | zero =>
      simp at hj
      subst hj
      simp [checkDataAux, hok, recordsOf_append, recordsOf_map_record_self,
        recordsOf_checkDataAux_lt backend rest (idx + 1) idx (by omega)]
    | succ k =>
      obtain ⟨rs0, hrs0⟩ := hpre qa0 (by simp)
      have hrec : recordsOf ((idx + 1) + k) (checkDataAux backend rest (idx + 1)).1 = rows :=
        ih (idx + 1) k qa rows (fun x hx => hpre x (by simp [hx])) (by simpa using hj) hok
      rw [show idx + (k + 1) = (idx + 1) + k by omega]
      simpa [checkDataAux, hrs0, recordsOf_append,
        recordsOf_map_record_ne ((idx + 1) + k) idx (by omega) rs0] using hrec

lemma checkDataAux_all_or_nothing (backend : Backend T F E) :
    ∀ (qas : List (PgDbAgentQueryActionParams T F)) (idx j : Nat),
      recordsOf (idx + j) (checkDataAux backend qas idx).1 = [] ∨
      ∃ qa, qas.get? j = some qa ∧
        backend qa = Except.ok (recordsOf (idx + j) (checkDataAux backend qas idx).1) := by
  intro qas
  induction qas with
  | nil => intro idx j; left; rfl
  | cons qa0 rest ih =>
    intro idx j
    cases hb : backend qa0 with
    | error e => left; simp [checkDataAux, hb, recordsOf]
    | ok rows =>
      cases j with
      | zero =>
        right
        refine ⟨qa0, by simp, ?_⟩
        simp [checkDataAux, hb, recordsOf_append, recordsOf_map_record_self,
          recordsOf_checkDataAux_lt backend rest (idx + 1) idx (by omega)]
      | succ k =>
        rw [show idx + (k + 1) = (idx + 1) + k by omega]
        rcases ih (idx + 1) k with h | ⟨qa, hget, hok⟩
        · left
          simp [checkDataAux, hb, recordsOf_append,
            recordsOf_map_record_ne ((idx + 1) + k) idx (by omega) rows, h]
        · right
          refine ⟨qa, by simpa using hget, ?_⟩
          simp only [checkDataAux, hb, recordsOf_append,
            recordsOf_map_record_ne ((idx + 1) + k) idx (by omega) rows,
            List.nil_append]
          exact hok

lemma err_not_mem_checkDataAux (backend : Backend T F E) :
    ∀ (qas : List (PgDbAgentQueryActionParams T F)) (idx : Nat) (e : E),
      Event.err e ∉ (checkDataAux backend qas idx).1 := by
  intro qas
  induction qas with
  | nil => intro idx e h; simp [checkDataAux] at h
  | cons qa rest ih =>
    intro idx e h
    cases hb : backend qa with
    | error e2 => simp [checkDataAux, hb] at h
    | ok rows =>
      simp [checkDataAux, hb, List.mem_append, List.mem_map] at h
      exact ih (idx + 1) e h

lemma errCount_eq_zero_of_no_err (l : List (Event T E))
    (h : ∀ e : E, Event.err e ∉ l) : errCount l = 0 := by
  induction l with
  | nil => rfl
  | cons ev rest ih =>
    have hrest : ∀ e : E, Event.err e ∉ rest := by
      intro e he
      exact h e (List.mem_cons_of_mem ev he)
    cases ev with
    | record i r => simpa [errCount, List.countP_cons] using ih hrest
    | err e => exact absurd (List.mem_cons_self _ _) (h e)

lemma checkDataAux_error_firstError (backend : Backend T F E) :
    ∀ (qas : List (PgDbAgentQueryActionParams T F)) (idx : Nat) (e : E),
      (checkDataAux backend qas idx).2 = Except.error e →
      firstError backend qas = some e := by
  intro qas
  induction qas with
  | nil => intro idx e h; simp [checkDataAux] at h
  | cons qa rest ih =>
    intro idx e h
    cases hb : backend qa with
    | error e2 =>
      simp [checkDataAux, hb] at h
      simp [firstError, hb, h]
    | ok rows =>
      simp [checkDataAux, hb] at h
      simp [firstError, hb, ih (idx + 1) e h]

lemma err_mem_tickEvents (backend : Backend T F E)
    (qas : List (PgDbAgentQueryActionParams T F)) (e : E)
    (h : Event.err e ∈ tickEvents backend qas) :
    (check_data backend qas).2 = Except.error e := by
  unfold tickEvents at h
  rcases List.mem_append.1 h with h1 | h2
  · exact absurd h1 (err_not_mem_checkDataAux backend qas 0 e)
  · cases hr : (check_data backend qas).2 with
    | ok u => rw [hr] at h2; simp [errEvents] at h2
    | error e2 =>
      rw [hr] at h2
      simp [errEvents] at h2
      rw [h2]

lemma checkDataAux_prefix_error (backend : Backend T F E)
    (qa : PgDbAgentQueryActionParams T F) (e : E) (he : backend qa = Except.error e)
    (post : List (PgDbAgentQueryActionParams T F)) :
    ∀ (pre : List (PgDbAgentQueryActionParams T F)) (idx : Nat),
      (∀ x ∈ pre, ∃ rs, backend x = Except.ok rs) →
      checkDataAux backend (pre ++ qa :: post) idx =
        (okDispatch backend pre idx, Except.error e) := by
  intro pre
  induction pre with
  | nil => intro idx _; simp [checkDataAux, he, okDispatch]
  | cons x pre' ih =>
    intro idx hpre
    obtain ⟨rs, hrs⟩ := hpre x (by simp)
    have htail := ih (idx + 1) (fun y hy => hpre y (by simp [hy]))
    simp [checkDataAux, hrs, okDispatch, htail, okRows]

lemma recordTags_append (l1 l2 : List (Event T E)) :
    recordTags (l1 ++ l2) = recordTags l1 ++ recordTags l2 := by
  simp [recordTags, List.filterMap_append]

lemma recordTags_map_record (i : Nat) (rows : List T) :
    recordTags (E := E) (rows.map (Event.record i)) = rows.map (fun _ => i) := by
  induction rows with
  | nil => rfl
  | cons r rs ih => simpa [recordTags, List.filterMap_cons] using ih

lemma recordTags_errEvents (r : Except E Unit) :
    recordTags (T := T) (errEvents r) = [] := by
  cases r <;> rfl

lemma pairwise_of_forall_rel {α : Type} (R : α → α → Prop) (l : List α)
    (h : ∀ a b, R a b) : l.Pairwise R := by
  induction l with
  | nil => exact List.Pairwise.nil
  | cons x xs ih => exact List.Pairwise.cons (fun b _ => h x b) ih

lemma recordTags_checkDataAux_ge (backend : Backend T F E) :
    ∀ (qas : List (PgDbAgentQueryActionParams T F)) (idx t : Nat),
      t ∈ recordTags (checkDataAux backend qas idx).1 → idx ≤ t := by
  intro qas
  induction qas with
  | nil => intro idx t h; simp [checkDataAux, recordTags] at h
  | cons qa rest ih =>
    intro idx t h
    cases hb : backend qa with
    | error e => simp [checkDataAux, hb, recordTags] at h
    | ok rows =>
      simp only [checkDataAux, hb] at h
      rw [recordTags_append, List.mem_append] at h
      rcases h with h | h
      · rw [recordTags_map_record] at h
        obtain ⟨r, _, rfl⟩ := List.mem_map.1 h
        exact Nat.le_refl idx
      · exact Nat.le_of_succ_le (ih (idx + 1) t h)

lemma recordTags_checkDataAux_sorted (backend : Backend T F E) :
    ∀ (qas : List (PgDbAgentQueryActionParams T F)) (idx : Nat),
      List.Pairwise (· ≤ ·) (recordTags (checkDataAux backend qas idx).1) := by
  intro qas
  induction qas with
  | nil => intro idx; exact List.Pairwise.nil
  | cons qa rest ih =>
    intro idx
    cases hb : backend qa with
    | error e => simp [checkDataAux, hb, recordTags]
    | ok rows =>
      simp only [checkDataAux, hb]
      rw [recordTags_append]
      refine List.pairwise_append.2 ⟨?_, ih (idx + 1), ?_⟩
      · rw [recordTags_map_record]
        exact List.pairwise_map.2 (pairwise_of_forall_rel _ _ (fun a b => le_refl idx))
      · intro a ha b hbm
        rw [recordTags_map_record] at ha
        obtain ⟨r, _, rfl⟩ := List.mem_map.1 ha
        exact Nat.le_of_succ_le (recordTags_checkDataAux_ge backend rest (idx + 1) b hbm)

lemma checkDataAux_congr (backend b2 : Backend T F E) :
    ∀ (qas : List (PgDbAgentQueryActionParams T F)) (idx : Nat),
      (∀ qa ∈ qas, backend qa = b2 qa) →
      checkDataAux backend qas idx = checkDataAux b2 qas idx := by
  intro qas
  induction qas with
  | nil => intro idx _; rfl
  | cons qa rest ih =>
    intro idx h
    have hqa : backend qa = b2 qa := h qa (by simp)
    have htail := ih (idx + 1) (fun y hy => h y (by simp [hy]))
    simp [checkDataAux, hqa, htail]

lemma agentRun_fst_lt (backends : Nat → Backend T F E)
    (qas : List (PgDbAgentQueryActionParams T F)) :
    ∀ (n : Nat) (p : Nat × Event T E), p ∈ agentRun backends qas n → p.1 < n := by
  intro n
  induction n with
  | zero => intro p h; simp [agentRun] at h
  | succ m ih =>
    intro p h
    simp only [agentRun, List.mem_append] at h
    rcases h with h | h
    · exact Nat.lt_succ_of_lt (ih p h)
    · obtain ⟨ev, _, rfl⟩ := List.mem_map.1 h
      exact Nat.lt_succ_self m

lemma agentRun_filter (backends : Nat → Backend T F E)
    (qas : List (PgDbAgentQueryActionParams T F)) :
    ∀ (n j : Nat), j < n →
      (agentRun backends qas n).filter (fun p => p.1 == j) =
        (tickEvents (backends j) qas).map (fun ev => (j, ev)) := by
  intro n
  induction n with
  | zero => intro j h; exact absurd h (Nat.not_lt_zero j)
  | succ m ih =>
    intro j hj
    rw [agentRun, List.filter_append]
    by_cases hjm : j = m
    · subst hjm
      have h1 : (agentRun backends qas j).filter (fun p => p.1 == j) = [] := by
        rw [List.filter_eq_nil_iff]
        intro p hp
        have := agentRun_fst_lt backends qas j p hp
        simp only [beq_iff_eq]
        omega
      have h2 : ((tickEvents (backends j) qas).map (fun ev => (j, ev))).filter
          (fun p => p.1 == j) = (tickEvents (backends j) qas).map (fun ev => (j, ev)) := by
        rw [List.filter_eq_self]
        intro p hp
        obtain ⟨ev, _, rfl⟩ := List.mem_map.1 hp
        simp
      rw [h1, h2, List.nil_append]
    · have hjm' : j < m := by omega
      have h2 : ((tickEvents (backends m) qas).map (fun ev => (m, ev))).filter
          (fun p => p.1 == j) = [] := by
        rw [List.filter_eq_nil_iff]
        intro p hp
        obtain ⟨ev, _, rfl⟩ := List.mem_map.1 hp
        simp only [beq_iff_eq]
        omega
      rw [ih j hjm', h2, List.append_nil]

lemma timedRunAux_fst_get (backends : Nat → Backend T F E)
    (qas : List (PgDbAgentQueryActionParams T F)) (proc : Nat → Nat) :
    ∀ (n d p now k0 i : Nat), i < n →
      ∃ ready,
        ((timedRunAux backends qas proc n ⟨d, p⟩ now k0).map Prod.fst).get? i =
          some (max (d + i * p) ready) := by
  intro n
  induction n with
  | zero => intro d p now k0 i h; exact absurd h (Nat.not_lt_zero i)
  | succ m ih =>
    intro d p now k0 i hi
    cases i with
    | zero =>
      refine ⟨now, ?_⟩
      simp [timedRunAux, Interval.tick]
    | succ ii =>
      obtain ⟨ready, hr⟩ := ih (d + p) p (max d now + proc k0) (k0 + 1) ii (by omega)
      refine ⟨ready, ?_⟩
      simp only [timedRunAux, Interval.tick, List.map_cons, List.get?_cons_succ]
      rw [hr, show (d + p) + ii * p = d + (ii + 1) * p by ring]

/-! ## Claim theorems -/

/-- C1 (counterexample): the claim says a failure of entry `i` still lets every
entry after `i` run in the same tick.  On the configuration where entry 0
fails with error 7 and entry 1 would succeed with row 42, the tick's only
handler invocation is the error handler: entry 1 is never executed and its
row is not dispatched, so the claim is false. -/
theorem tick_failure_skips_later_entries_cex :
    tickEvents cexBackend cexEntries = [Event.err 7] ∧
    recordsOf 1 (tickEvents cexBackend cexEntries) = [] := by
  constructor <;> rfl

/-- C1 (amended): if every entry before the failing entry succeeds and that
entry's `fetch_all` fails with `e`, the tick dispatches all rows of the
earlier entries in order, then invokes the shared error handler with `e`, and
executes none of the remaining entries of that tick; they only run again at
the next tick. -/
theorem tick_error_prefix_dispatch (backend : Backend T F E)
    (pre post : List (PgDbAgentQueryActionParams T F))
    (qa : PgDbAgentQueryActionParams T F) (e : E)
    (hpre : ∀ x ∈ pre, ∃ rs, backend x = Except.ok rs)
    (he : backend qa = Except.error e) :
    tickEvents backend (pre ++ qa :: post) =
      okDispatch backend pre 0 ++ [Event.err e] := by
  have h := checkDataAux_prefix_error backend qa e he post pre 0 hpre
  simp [tickEvents, check_data, h, errEvents]

/-- C1 (witness): the amended statement at a concrete input — one succeeding
entry followed by a failing one. -/
theorem tick_error_prefix_dispatch_witness :
    tickEvents cexBackend
        [PgDbAgentQueryActionParams.new 1 "SELECT a FROM t1" (),
         PgDbAgentQueryActionParams.new 0 "SELECT a FROM t0" ()] =
      okDispatch cexBackend [PgDbAgentQueryActionParams.new 1 "SELECT a FROM t1" ()] 0 ++
        [Event.err 7] :=
  tick_error_prefix_dispatch cexBackend
    [PgDbAgentQueryActionParams.new 1 "SELECT a FROM t1" ()] []
    (PgDbAgentQueryActionParams.new 0 "SELECT a FROM t0" ()) 7
    (by
      intro x hx
      rw [List.mem_singleton] at hx
      subst hx
      exact ⟨[42], rfl⟩)
    rfl

/-- C2 (counterexample): the claim says the first execution happens only after
one full interval and that cancellation before one interval means no record
handler has run.  With interval 5 and start instant 0, the first tick of the
started agent fires at instant 0 — zero elapsed time, strictly less than one
interval — and already dispatches row 42 to entry 0's record handler. -/
theorem first_tick_immediate_cex :
    timedRun 5 0 (fun _ => cexOkBackend) cexOneEntry (fun _ => 0) 1 =
      [(0, [Event.record 0 42])] ∧ (0 : Nat) < 5 := by
  constructor
  · rfl
  · decide

/-- C2 (amended): for every started agent the first tick fires immediately at
the start instant (`tokio::time::interval`'s first tick completes
immediately), executing the query-action entries at zero elapsed time; so
record handlers can already have been invoked before one full interval has
elapsed. -/
theorem first_tick_at_start (period t0 : Nat) (backends : Nat → Backend T F E)
    (qas : List (PgDbAgentQueryActionParams T F)) (proc : Nat → Nat) (n : Nat) :
    (timedRun period t0 backends qas proc (n + 1)).head? =
      some (t0, tickEvents (backends 0) qas) := by
  simp [timedRun, timedRunAux, Interval.new, Interval.tick]

/-- C3 (counterexample): the claim says consecutive ticks are separated by the
interval measured from the previous tick's dispatch and that the timer never
fires several times in rapid succession to catch up.  With interval 5, start
instant 0 and a first tick whose processing takes 12 time units, the dispatch
instants are 0, 12, 12: the second tick fires 12 (not 5) units after the
previous dispatch, and the third fires at the very same instant as the second
(separation 0 < 5) — a catch-up double fire. -/
theorem interval_burst_cex :
    (timedRun 5 0 (fun _ => cexOkBackend) cexOneEntry
        (fun k => if k = 0 then 12 else 0) 3).map Prod.fst = [0, 12, 12] ∧
    ((12 : Nat) - 0 ≠ 5 ∧ (12 : Nat) - 12 < 5) := by
  constructor
  · rfl
  · decide

/-- C3 (amended): tick deadlines are fixed-rate — the `k`-th tick of a run
fires at `max (t0 + k * period) ready` for some readiness instant `ready`,
i.e. its deadline is anchored `k` periods after start, not one period after
the previous dispatch — and when a tick completes at least one full period
after its own deadline, the immediately following tick fires at the very same
instant (burst catch-up of missed ticks). -/
theorem interval_fixed_rate_burst (period t0 : Nat) (backends : Nat → Backend T F E)
    (qas : List (PgDbAgentQueryActionParams T F)) (proc : Nat → Nat)
    (n k : Nat) (hk : k < n) (s : Interval) (now : Nat)
    (hlate : s.deadline + s.period ≤ now) :
    (∃ ready, ((timedRun period t0 backends qas proc n).map Prod.fst).get? k =
        some (max (t0 + k * period) ready)) ∧
    ((s.tick now).2.tick (s.tick now).1).1 = (s.tick now).1 := by
  constructor
  · simpa [timedRun, Interval.new] using
      timedRunAux_fst_get backends qas proc n t0 period t0 0 k hk
  · have h1 : s.deadline ≤ now := le_trans (Nat.le_add_right _ _) hlate
    simp [Interval.tick, Nat.max_eq_right h1, Nat.max_eq_right hlate]

/-- C3 (witness): the amended statement at a concrete input — interval 5,
start 0, first tick of a one-tick run, and a ticker state polled 12 instants
after a deadline-0/period-5 state. -/
theorem interval_fixed_rate_burst_witness :
    (∃ ready,
        ((timedRun 5 0 (fun _ => cexOkBackend) cexOneEntry (fun _ => 0) 1).map
          Prod.fst).get? 0 = some (max (0 + 0 * 5) ready)) ∧
    ((((Interval.mk 0 5).tick 12).2).tick (((Interval.mk 0 5).tick 12).1)).1 =
      ((Interval.mk 0 5).tick 12).1 :=
  interval_fixed_rate_burst 5 0 (fun _ => cexOkBackend) cexOneEntry (fun _ => 0)
    1 0 (by decide) (Interval.mk 0 5) 12 (by decide)

/-- C4 (confirmed): in a tick, when an entry's query execution actually takes
place (every earlier entry succeeded) and succeeds with row list `rows`, the
entry's record handler is invoked exactly once per row, in exactly the
backend-returned order: the rows dispatched to entry `j` are `rows` itself. -/
theorem rows_dispatched_exactly (backend : Backend T F E)
    (qas : List (PgDbAgentQueryActionParams T F)) (j : Nat)
    (qa : PgDbAgentQueryActionParams T F) (rows : List T)
    (hpre : ∀ x ∈ qas.take j, ∃ rs, backend x = Except.ok rs)
    (hj : qas.get? j = some qa) (hok : backend qa = Except.ok rows) :
    recordsOf j (tickEvents backend qas) = rows := by
  rw [recordsOf_tickEvents]
  simpa [check_data] using
    recordsOf_checkDataAux_at backend qas 0 j qa rows hpre hj hok

/-- C4 (witness): entry 1 of a two-entry configuration on a backend returning
each entry's pool id as its single row: entry 1 receives exactly `[1]`. -/
theorem rows_dispatched_exactly_witness :
    recordsOf 1 (tickEvents cexPoolBackend cexEntries) = [1] :=
  rows_dispatched_exactly cexPoolBackend cexEntries 1
    (PgDbAgentQueryActionParams.new 1 "SELECT a FROM t1" ()) [1]
    (by
      intro x hx
      exact ⟨[x.pool], rfl⟩)
    rfl rfl

/-- C5 (confirmed): within one tick the entries are processed sequentially in
the fixed construction order — the entry indices of the record-handler
invocations form a non-decreasing sequence — and the invocation order is
deterministic in the configuration and the backend responses: two backends
agreeing on every entry of the configuration produce the identical tick
trace. -/
theorem entries_in_construction_order (backend : Backend T F E)
    (qas : List (PgDbAgentQueryActionParams T F)) :
    List.Pairwise (· ≤ ·) (recordTags (tickEvents backend qas)) ∧
    ∀ b2 : Backend T F E, (∀ qa ∈ qas, backend qa = b2 qa) →
      tickEvents backend qas = tickEvents b2 qas := by
  constructor
  · rw [tickEvents, recordTags_append, recordTags_errEvents, List.append_nil]
    exact recordTags_checkDataAux_sorted backend qas 0
  · intro b2 h
    rw [tickEvents, tickEvents, check_data, check_data, checkDataAux_congr backend b2 qas 0 h]

/-- C5 (witness): the order statement at a concrete input, with the
determinism part discharged against an equal backend. -/
theorem entries_in_construction_order_witness :
    List.Pairwise (· ≤ ·) (recordTags (tickEvents cexPoolBackend cexEntries)) ∧
    tickEvents cexPoolBackend cexEntries = tickEvents cexPoolBackend cexEntries :=
  ⟨(entries_in_construction_order cexPoolBackend cexEntries).1,
   (entries_in_construction_order cexPoolBackend cexEntries).2 cexPoolBackend
     (fun _ _ => rfl)⟩

/-- C6 (confirmed): a query-execution or decode failure never terminates the
scheduling loop: in a run of `n` ticks, even when tick `k` failed (its
`check_data` returned an error), tick `k + 1` still fires and its handler
invocations are exactly the full tick trace of the configuration under
tick `k + 1`'s backend responses — unaffected by the earlier failure. -/
theorem tick_failure_not_fatal (backends : Nat → Backend T F E)
    (qas : List (PgDbAgentQueryActionParams T F)) (n k : Nat) (e : E)
    (_hfail : (check_data (backends k) qas).2 = Except.error e)
    (hk : k + 1 < n) :
    ((agentRun backends qas n).filter (fun p => p.1 == k + 1)).map Prod.snd =
      tickEvents (backends (k + 1)) qas := by
  rw [agentRun_filter backends qas n (k + 1) hk, List.map_map]
  simp

/-- C6 (witness): a two-tick run whose first tick fails with error 5; the
second tick still dispatches its row. -/
theorem tick_failure_not_fatal_witness :
    ((agentRun cexTickBackends cexOneEntry 2).filter (fun p => p.1 == 1)).map
        Prod.snd = tickEvents (cexTickBackends 1) cexOneEntry :=
  tick_failure_not_fatal cexTickBackends cexOneEntry 2 0 5 rfl (by decide)

/-- C7 (confirmed): a bundle constructed from an empty `query_actions` list is
accepted as-is by `PgDbAgentParams::new`, and a tick over it is a no-op:
no record handler and no error handler is invoked. -/
theorem empty_query_actions_noop (backend : Backend T F E) (d : Nat) (eh : Eh) :
    (PgDbAgentParams.new ([] : List (PgDbAgentQueryActionParams T F)) d eh).query_actions
        = [] ∧
    tickEvents backend
        (PgDbAgentParams.new ([] : List (PgDbAgentQueryActionParams T F)) d
          eh).query_actions = [] :=
  ⟨rfl, rfl⟩

/-- C8 (confirmed): `PgDbIdleAgent::new` only wraps the bundle: the agent it
returns is exactly the record holding the given bundle, and the stored
configuration equals the bundle passed in.  No handler invocation, query
execution or background work appears anywhere in its definition. -/
theorem new_stores_params (p : PgDbAgentParams T F Eh) :
    PgDbIdleAgent.new p = { params := p } ∧ (PgDbIdleAgent.new p).params = p :=
  ⟨rfl, rfl⟩

/-- C9 (confirmed): within one tick the shared error handler is invoked at
most once, and any reported error is the failure of the first failing entry:
`check_data` stops at the first failure and the loop body reports only that
one error. -/
theorem error_handler_at_most_once (backend : Backend T F E)
    (qas : List (PgDbAgentQueryActionParams T F)) :
    errCount (tickEvents backend qas) ≤ 1 ∧
    ∀ e : E, Event.err e ∈ tickEvents backend qas → firstError backend qas = some e := by
  constructor
  · rw [tickEvents, errCount, List.countP_append]
    have h0 : errCount (check_data backend qas).1 = 0 :=
      errCount_eq_zero_of_no_err _ (fun e => err_not_mem_checkDataAux backend qas 0 e)
    rw [errCount] at h0
    rw [h0]
    cases (check_data backend qas).2 <;> simp [errEvents, List.countP_cons, List.countP_nil]
  · intro e h
    exact checkDataAux_error_firstError backend qas 0 e (err_mem_tickEvents backend qas e h)

/-- C9 (witness): the statement at a concrete input whose first entry fails
with error 7. -/
theorem error_handler_at_most_once_witness :
    errCount (tickEvents cexBackend cexEntries) ≤ 1 ∧
    firstError cexBackend cexEntries = some 7 :=
  ⟨(error_handler_at_most_once cexBackend cexEntries).1,
   (error_handler_at_most_once cexBackend cexEntries).2 7 (by decide)⟩

/-- C10 (confirmed): per-entry dispatch is all-or-nothing within a tick: for
every entry position `j`, either no row at all is dispatched to entry `j`'s
record handler in the tick, or the rows dispatched to it are exactly the
complete successfully-executed-and-decoded row list of that entry's
`fetch_all` — never a proper nonempty prefix; in particular an entry whose
execution or row decode fails (its `fetch_all` is an error, never an `Ok`)
has zero rows dispatched. -/
theorem entry_dispatch_all_or_nothing (backend : Backend T F E)
    (qas : List (PgDbAgentQueryActionParams T F)) (j : Nat) :
    recordsOf j (tickEvents backend qas) = [] ∨
    ∃ qa, qas.get? j = some qa ∧
      backend qa = Except.ok (recordsOf j (tickEvents backend qas)) := by
  rw [recordsOf_tickEvents]
  simpa [check_data] using checkDataAux_all_or_nothing backend qas 0 j

end PgAgent
